import Mathlib

/-!
Verification of the elastic training driver (`horovod/run/elastic/driver.py`).

The Python source is shallowly embedded: each method of `ElasticDriver` and
`Results` becomes a pure Lean function over an explicit `DriverState`; Python
dicts become association lists with first-match lookup (`dget`), insertion
that overwrites in place or appends (`dinsert`), and `defaultdict(list)`
append (`dappend`).  Side effects on external collaborators (rendezvous
service, worker registry, worker threads, RPC clients) are recorded as an
explicit `Event` trace.  Exceptions are modelled with `Except`.  External
collaborators whose classes are outside the embedded source (`HostManager`,
`WorkerStateRegistry`, the `hosts` assignment module) are modelled from the
spec as abstract parameters, marked `Modelled from the spec:` below.
-/

set_option maxHeartbeats 1000000

namespace Horovod

/-- Association-list model of a Python dict lookup `m[k]` / `m.get(k)`:
first entry whose key equals `k`. -/
def dget {κ α : Type} [DecidableEq κ] : List (κ × α) → κ → Option α
  | [], _ => none
  | (k', v) :: rest, k => if k' = k then some v else dget rest k

/-- Python dict assignment `m[k] = v`: overwrite in place when the key is
present, otherwise append (insertion order). -/
def dinsert {κ α : Type} [DecidableEq κ] : List (κ × α) → κ → α → List (κ × α)
  | [], k, v => [(k, v)]
  | (k', v') :: rest, k, v =>
    if k' = k then (k, v) :: rest else (k', v') :: dinsert rest k v

/-- `SlotInfo` as produced by the external assigner (`horovod.run.common.util.hosts`). -/
structure SlotInfo where
  hostname : String
  rank : Int
  local_rank : Int
  cross_rank : Int
  size : Int
  local_size : Int
  cross_size : Int
  deriving DecidableEq

/-- Modelled from the spec: the out-of-band sentinel `INVALID_SLOT_INFO` of the
missing `hosts` module, denoting "no assignment". -/
def INVALID_SLOT_INFO : SlotInfo :=
  { hostname := "", rank := -1, local_rank := -1, cross_rank := -1,
    size := -1, local_size := -1, cross_size := -1 }

/-- `HostInfo(hostname, slots)` handed to the assigner. -/
structure HostInfo where
  hostname : String
  slots : Nat
  deriving DecidableEq

/-- Modelled from the spec: the snapshot object `HostManager.current_hosts`
(the `HostManager` class is not part of the embedded source).  It carries the
available set, the stable ordering used as assigner input, and per-host slot
counts. -/
structure CurrentHosts where
  available_hosts : List String
  ordered_available_hosts : List String
  host_slots : List (String × Nat)

/-- Modelled from the spec: `current_hosts.get_slots(host)`. -/
def CurrentHosts.get_slots (ch : CurrentHosts) (h : String) : Nat :=
  (dget ch.host_slots h).getD 0

/-- Modelled from the spec: `current_hosts.count_available_slots()` — the sum
of the slot counts over the available hosts. -/
def CurrentHosts.count_available_slots (ch : CurrentHosts) : Nat :=
  (ch.available_hosts.map ch.get_slots).sum

/-- The driver state: the fields of `ElasticDriver.__init__` that the embedded
methods read or write.  `worker_clients` maps `(host, local_rank)` to the
registered notification client, modelled by a single flag saying whether its
`notify_hosts_updated` RPC raises.  `blacklist` stands for the host manager's
blacklist set (`is_blacklisted`). -/
structure DriverState where
  min_np : Nat
  max_np : Nat
  verbose : Nat
  host_assignments : List (String × List SlotInfo)
  rank_assignments : List (Int × SlotInfo)
  world_size : Nat
  blacklist : List String
  worker_clients : List ((String × Int) × Bool)
  results : List (String × (Int × Int))
  shutdown : Bool
  deriving DecidableEq

/-- Trace of externally visible effects of a driver operation. -/
inductive Event where
  | rendezvousInit (slots : List SlotInfo)
  | registryReset (world_size : Nat)
  | spawnWorker (slot : SlotInfo)
  | notifyHostsUpdated (host : String) (local_rank : Int) (timestamp : Int)
  | recordSuccess (host : String) (local_rank : Int)
  | recordFailure (host : String) (local_rank : Int)
  | addResult (key : String) (value : Int × Int)
  | condBroadcast
  | logWarning
  deriving DecidableEq

/-- `Results.add_result(key, value)`: insert only when the key is absent
(first-writer-wins). -/
def add_result {α : Type} (m : List (String × α)) (key : String) (value : α) :
    List (String × α) :=
  if (dget m key).isSome then m else m ++ [(key, value)]

/-- `ElasticDriver.stop()`: set the shutdown signal (the discovery-thread join
has no state effect). -/
def stop (st : DriverState) : DriverState := { st with shutdown := true }

/-- `ElasticDriver.finished()`. -/
def finished (st : DriverState) : Bool := st.shutdown

/-- Modelled from the spec: `HostManager.is_blacklisted(host)` — membership in
the permanent blacklist (the `HostManager` class is not part of the embedded
source). -/
def is_blacklisted (st : DriverState) (host : String) : Bool :=
  st.blacklist.contains host

/-- `ElasticDriver.has_rank_assignment(host, slot)`:
`not blacklisted and host in host_assignments and len(host_assignments[host]) > slot`. -/
def has_rank_assignment (st : DriverState) (host : String) (slot : Int) : Bool :=
  if is_blacklisted st host then false
  else
    match dget st.host_assignments host with
    | none => false
    | some l => decide ((l.length : Int) > slot)

/-- Python list subscript `l[i]`: negative indices count from the end, and an
index outside `[-len, len)` raises `IndexError` (the `.error` case). -/
def pyListGet {α : Type} (l : List α) (i : Int) : Except Unit α :=
  let j : Int := if i < 0 then i + (l.length : Int) else i
  if 0 ≤ j then
    match l.get? j.toNat with
    | some x => Except.ok x
    | none => Except.error ()
  else Except.error ()

/-- `ElasticDriver.get_slot_info(host, slot)`: the guarded subscript
`host_assignments[host][slot] if has_rank_assignment(host, slot) else INVALID_SLOT_INFO`.
A `KeyError`/`IndexError` escaping the subscript is the `.error` case. -/
def get_slot_info (st : DriverState) (host : String) (slot : Int) :
    Except Unit SlotInfo :=
  if has_rank_assignment st host slot then
    match dget st.host_assignments host with
    | none => .error ()
    | some l => pyListGet l slot
  else .ok INVALID_SLOT_INFO

/-- `ElasticDriver.local_size(host)`: `len(host_assignments[host])`, raising
`KeyError` (the `.error` case) when the host has no entry. -/
def local_size (st : DriverState) (host : String) : Except Unit Nat :=
  match dget st.host_assignments host with
  | none => .error ()
  | some l => .ok l.length

/-- Modelled from the spec: the `WorkerStateRegistry` (not part of the embedded
source) as seen by `_handle_worker_exit`: `record_success` / `record_failure`
return the rendezvous round id the report was accounted against, and
`last_rendezvous` is the id of the last committed round. -/
structure RegistryModel where
  record_success_id : String → Int → Nat
  record_failure_id : String → Int → Nat
  last_rendezvous : Nat

/-- `ElasticDriver._handle_worker_exit(slot_info, exit_code, timestamp)`. -/
def handle_worker_exit (st : DriverState) (reg : RegistryModel)
    (slot_info : SlotInfo) (exit_code timestamp : Int) : DriverState × List Event :=
  if has_rank_assignment st slot_info.hostname slot_info.local_rank = false then
    (st, [])
  else
    let rp : Nat × List Event :=
      if exit_code = 0 then
        (reg.record_success_id slot_info.hostname slot_info.local_rank,
         [Event.recordSuccess slot_info.hostname slot_info.local_rank])
      else
        (reg.record_failure_id slot_info.hostname slot_info.local_rank,
         [Event.recordFailure slot_info.hostname slot_info.local_rank])
    if finished st = true ∧ reg.last_rendezvous = rp.1 then
      let key := slot_info.hostname ++ "[" ++ toString slot_info.local_rank ++ "]"
      ({ st with results := add_result st.results key (exit_code, timestamp) },
       rp.2 ++ [Event.addResult key (exit_code, timestamp)])
    else (st, rp.2)

/-- `defaultdict(list)` append: `m[k].append(v)` creating the entry when
absent (insertion order). -/
def dappend (m : List (String × List SlotInfo)) (k : String) (v : SlotInfo) :
    List (String × List SlotInfo) :=
  match m with
  | [] => [(k, [v])]
  | (k', vs) :: rest =>
    if k' = k then (k', vs ++ [v]) :: rest else (k', vs) :: dappend rest k v

/-- Lookup in an assignment dict defaulting to the empty slot list. -/
def dgetL (m : List (String × List SlotInfo)) (h : String) : List SlotInfo :=
  (dget m h).getD []

/-- The grouping loop of `_get_host_assignments`: a `defaultdict(list)` filled
by appending each slot to the entry of its hostname, in list order. -/
def group_by_host (l : List SlotInfo) : List (String × List SlotInfo) :=
  l.foldl (fun m s => dappend m s.hostname s) []

/-- The slots of `l` whose hostname is `h`, in order. -/
def filterHost (l : List SlotInfo) (h : String) : List SlotInfo :=
  l.filter fun s => s.hostname == h

/-- Sum of the lengths of the per-host slot lists of an assignment dict. -/
def sum_local_sizes (ha : List (String × List SlotInfo)) : Nat :=
  (ha.map fun p => p.2.length).sum

/-- All slots of an assignment dict, in `items()` order. -/
def vals_of (ha : List (String × List SlotInfo)) : List SlotInfo :=
  ha.foldr (fun p acc => p.2 ++ acc) []

/-- Well-formedness of an assignment dict: every slot stored under a key has
that key as its hostname (holds for every `group_by_host` output). -/
def GoodKeys (m : List (String × List SlotInfo)) : Prop :=
  ∀ p ∈ m, ∀ s ∈ p.2, s.hostname = p.1

/-- The `active_slots` set of `_update_host_assignments`: the
`(host, local_rank)` pairs present in an assignment dict. -/
def slot_pairs (ha : List (String × List SlotInfo)) : List (String × Int) :=
  ha.foldr (fun p acc => p.2.map (fun s => (p.1, s.local_rank)) ++ acc) []

/-- The `pending_slots` comprehension of `_update_host_assignments`: slots of
the assignment dict whose `(host, local_rank)` pair is not in `active`. -/
def pending_of (ha : List (String × List SlotInfo)) (active : List (String × Int)) :
    List SlotInfo :=
  ha.foldr
    (fun p acc => p.2.filter (fun s => !(active.contains (p.1, s.local_rank))) ++ acc)
    []

/-- The rank-assignment loop of `_update_host_assignments`:
`rank_assignments[slot_info.rank] = slot_info` over the slot list. -/
def build_rank_assignments (l : List SlotInfo) : List (Int × SlotInfo) :=
  l.foldl (fun m s => dinsert m s.rank s) []

/-- Modelled from the spec: the pure, stable external assignment function
`hosts.get_host_assignments(host_list, min_np, max_np)` of the missing `hosts`
module, an abstract parameter here. -/
abbrev Assigner : Type := List HostInfo → Nat → Nat → List SlotInfo

/-- `ElasticDriver._get_host_assignments(current_hosts)`: build the
`HostInfo` list in stable order, run the assigner, and group by hostname. -/
def get_host_assignments (assign : Assigner) (st : DriverState) (ch : CurrentHosts) :
    List (String × List SlotInfo) × List SlotInfo :=
  let host_list := ch.ordered_available_hosts.map fun h => HostInfo.mk h (ch.get_slots h)
  let host_assignments_list := assign host_list st.min_np st.max_np
  (group_by_host host_assignments_list, host_assignments_list)

/-- `not (prev_hosts & next_hosts)`: no key of `prev` is a key of `next`. -/
def no_common_host (prev next : List (String × List SlotInfo)) : Bool :=
  prev.all fun q => (dget next q.1).isNone

/-- `ElasticDriver._update_host_assignments(current_hosts)`.  Returns the
state at the point control leaves the method, the emitted events (the
rendezvous `httpd.init` push), and either the `pending_slots` list or the
raised `RuntimeError`. -/
def update_host_assignments (assign : Assigner) (st : DriverState) (ch : CurrentHosts) :
    DriverState × List Event × Except String (List SlotInfo) :=
  let active_slots := slot_pairs st.host_assignments
  let host_assignments := (get_host_assignments assign st ch).1
  let host_assignments_list := (get_host_assignments assign st ch).2
  if 0 < st.host_assignments.length ∧
      no_common_host st.host_assignments host_assignments = true then
    (st, [],
     Except.error "No hosts from previous set remaining, unable to broadcast state.")
  else
    let st1 := { st with host_assignments := host_assignments,
                         world_size := host_assignments_list.length }
    let st2 := { st1 with rank_assignments := build_rank_assignments host_assignments_list }
    (st2, [Event.rendezvousInit host_assignments_list],
     Except.ok (pending_of st1.host_assignments active_slots))

/-- `ElasticDriver._has_available_slots(slots, min_np)`. -/
def has_available_slots (slots min_np : Nat) : Bool :=
  decide (slots ≥ min_np)

/-- `ElasticDriver.wait_for_available_hosts(min_np)`: loop on the
hosts-changed condition, re-reading the snapshot each wake-up; `snaps k` is
the snapshot observed at the k-th check, `fuel` the number of waits the
timeout still allows before `check_time_out` raises (the `.error` case). -/
def wait_for_available_hosts (snaps : Nat → CurrentHosts) (min_np : Nat) :
    Nat → Nat → Except Unit CurrentHosts
  | 0, k =>
    if has_available_slots (snaps k).count_available_slots min_np then
      Except.ok (snaps k)
    else Except.error ()
  | fuel + 1, k =>
    if has_available_slots (snaps k).count_available_slots min_np then
      Except.ok (snaps k)
    else wait_for_available_hosts snaps min_np fuel (k + 1)

/-- `wait_for_available_hosts` as a driver operation: it only reads the
driver state, so the state is passed through. -/
def wait_for_available_hostsD (st : DriverState) (snaps : Nat → CurrentHosts)
    (min_np fuel k : Nat) : DriverState × Except Unit CurrentHosts :=
  (st, wait_for_available_hosts snaps min_np fuel k)

/-- `ElasticDriver._activate_hosts(min_np)`: wait for capacity, update the
assignment, `registry.reset(world_size())`, then spawn a supervisor for each
pending slot. -/
def activate_hosts (assign : Assigner) (st : DriverState) (snaps : Nat → CurrentHosts)
    (fuel min_np : Nat) : DriverState × List Event × Except String Unit :=
  match wait_for_available_hosts snaps min_np fuel 0 with
  | Except.error _ => (st, [], Except.error "timed out waiting for available hosts")
  | Except.ok current_hosts =>
    match update_host_assignments assign st current_hosts with
    | (st', evs, Except.error msg) => (st', evs, Except.error msg)
    | (st', evs, Except.ok pending_slots) =>
      (st',
       evs ++ Event.registryReset st'.world_size :: pending_slots.map Event.spawnWorker,
       Except.ok ())

/-- Python dict equality `next_host_assignments == self._host_assignments`:
same value (or absence) at every key of either dict. -/
def map_eq_assignments (m1 m2 : List (String × List SlotInfo)) : Bool :=
  (m1.map Prod.fst ++ m2.map Prod.fst).all fun k => decide (dget m1 k = dget m2 k)

/-- `ElasticDriver._notify_workers_host_changes(current_hosts)`.  The RPC call
on the coordinator client is modelled by the client's stored flag (`true` =
the call raises); the bare `except:` around it makes the method return
normally either way, so the second component is the method's own outcome. -/
def notify_workers_host_changes (assign : Assigner) (st : DriverState)
    (ch : CurrentHosts) (timestamp : Int) : List Event × Except Unit Unit :=
  let next_host_assignments := (get_host_assignments assign st ch).1
  if map_eq_assignments next_host_assignments st.host_assignments then
    ([], Except.ok ())
  else
    match dget st.rank_assignments 0 with
    | none => ([], Except.ok ())
    | some coordinator_slot_info =>
      match dget st.worker_clients
          (coordinator_slot_info.hostname, coordinator_slot_info.local_rank) with
      | none => ([], Except.ok ())
      | some client_raises =>
        let call : Except Unit Unit :=
          if client_raises then Except.error () else Except.ok ()
        match call with
        | Except.ok _ =>
          ([Event.notifyHostsUpdated coordinator_slot_info.hostname
              coordinator_slot_info.local_rank timestamp], Except.ok ())
        | Except.error _ =>
          (Event.notifyHostsUpdated coordinator_slot_info.hostname
              coordinator_slot_info.local_rank timestamp ::
             (if 2 ≤ st.verbose then [Event.logWarning] else []), Except.ok ())

/-- Recognizer for the coordinator-notification RPC event. -/
def isNotifyEvent : Event → Bool
  | Event.notifyHostsUpdated _ _ _ => true
  | _ => false

/-- Python exceptions as seen by `_discover_hosts`: the `except RuntimeError`
clause distinguishes `RuntimeError` from every other exception type. -/
inductive PyErr where
  | runtimeError (msg : String)
  | otherError (msg : String)
  deriving DecidableEq

/-- One iteration of the `while` body of `_discover_hosts`.  `upd` models
`host_manager.update_available_hosts()` on the host-manager state `hm` (an
abstract type `H`), returning the new state and the changed flag, or raising
(modelled from the spec: on a raise the previous host set is retained, so no
partial new state exists).  `notify_events` are the effects
`_notify_workers_host_changes` would emit when the set changed. -/
def discover_iteration {H : Type} (first_update : Bool) (hm : H)
    (upd : H → Except PyErr (H × Bool)) (notify_events : List Event) :
    Except PyErr (H × List Event) :=
  match upd hm with
  | Except.ok (hm', changed) =>
    if changed then Except.ok (hm', notify_events ++ [Event.condBroadcast])
    else Except.ok (hm', [])
  | Except.error e =>
    match e with
    | PyErr.runtimeError msg =>
      if first_update then Except.error (PyErr.runtimeError msg)
      else Except.ok (hm, [Event.logWarning])
    | PyErr.otherError msg => Except.error (PyErr.otherError msg)

/-- The `_discover_hosts` loop: `fuel` iterations run before the shutdown
signal is observed; `tick` numbers the invocations, `first_update` is the
loop's flag.  An escaping exception (`.error`) is the discovery thread
dying. -/
def discover_hosts {H : Type} (upd : Nat → H → Except PyErr (H × Bool))
    (notify_events : Nat → List Event) :
    Nat → Nat → Bool → H → Except PyErr (H × List Event)
  | 0, _, _, hm => Except.ok (hm, [])
  | fuel + 1, tick, first_update, hm =>
    match discover_iteration first_update hm (upd tick) (notify_events tick) with
    | Except.error e => Except.error e
    | Except.ok (hm', evs) =>
      match discover_hosts upd notify_events fuel (tick + 1) false hm' with
      | Except.error e => Except.error e
      | Except.ok (hm'', evs') => Except.ok (hm'', evs ++ evs')

/-- A concrete driver state used by witnesses: fresh driver, nothing assigned. -/
def exampleState : DriverState :=
  { min_np := 1, max_np := 4, verbose := 0,
    host_assignments := [], rank_assignments := [], world_size := 0,
    blacklist := [], worker_clients := [], results := [], shutdown := false }

/-- A concrete slot on host `h1` used by witnesses and counterexamples. -/
def slotH1 : SlotInfo :=
  { hostname := "h1", rank := 0, local_rank := 0, cross_rank := 0,
    size := 1, local_size := 1, cross_size := 1 }

/-- A concrete driver state with one assigned slot on host `h1`. -/
def stateH1 : DriverState :=
  { exampleState with
    host_assignments := [("h1", [slotH1])],
    rank_assignments := [(0, slotH1)],
    world_size := 1 }

/-- A concrete registry model: every report lands in round 3, which is also
the last committed round. -/
def reg0 : RegistryModel :=
  { record_success_id := fun _ _ => 3,
    record_failure_id := fun _ _ => 3,
    last_rendezvous := 3 }

/-- A concrete slot on host `h2` (for the state-broadcast-lost witness). -/
def slotH2 : SlotInfo :=
  { hostname := "h2", rank := 0, local_rank := 0, cross_rank := 0,
    size := 1, local_size := 1, cross_size := 1 }

/-- A concrete snapshot advertising only host `h2`. -/
def chH2 : CurrentHosts :=
  { available_hosts := ["h2"], ordered_available_hosts := ["h2"],
    host_slots := [("h2", 1)] }

/-- A concrete snapshot advertising only host `h3`. -/
def chH3 : CurrentHosts :=
  { available_hosts := ["h3"], ordered_available_hosts := ["h3"],
    host_slots := [("h3", 1)] }

/-- A concrete snapshot with no hosts at all. -/
def chEmpty : CurrentHosts :=
  { available_hosts := [], ordered_available_hosts := [], host_slots := [] }

/-- A concrete slot on host `h3`. -/
def t1 : SlotInfo :=
  { hostname := "h3", rank := 0, local_rank := 0, cross_rank := 0,
    size := 1, local_size := 1, cross_size := 1 }

/-- A second concrete slot on host `h3` (rank 1, local rank 1). -/
def t2 : SlotInfo :=
  { hostname := "h3", rank := 1, local_rank := 1, cross_rank := 1,
    size := 2, local_size := 2, cross_size := 1 }

/-- A concrete assigner returning the single slot `slotH2`. -/
def assignH2 : Assigner := fun _ _ _ => [slotH2]

/-- A concrete assigner returning the single slot `t1`. -/
def assignT1 : Assigner := fun _ _ _ => [t1]

/-- A concrete assigner returning two slots `t1`, `t2` on host `h3`. -/
def assignT12 : Assigner := fun _ _ _ => [t1, t2]

/-- A concrete assigner returning the single slot `slotH1`. -/
def assignH1 : Assigner := fun _ _ _ => [slotH1]

/-- The driver state produced by activating `assignT1` from `exampleState`. -/
def stateH3 : DriverState :=
  { exampleState with
    host_assignments := [("h3", [t1])],
    rank_assignments := [(0, t1)],
    world_size := 1 }

/-- The driver state produced by activating `assignT12` from `exampleState`. -/
def stateT12 : DriverState :=
  { exampleState with
    host_assignments := [("h3", [t1, t2])],
    rank_assignments := [(0, t1), (1, t2)],
    world_size := 2 }

/-- A concrete discovery-update schedule whose second invocation raises a
non-`RuntimeError` exception. -/
def updCE : Nat → Unit → Except PyErr (Unit × Bool) :=
  fun tick _ =>
    if tick = 0 then Except.ok ((), false)
    else Except.error (PyErr.otherError "boom")

/-- A concrete discovery update that always raises `RuntimeError`. -/
def updRT : Nat → Unit → Except PyErr (Unit × Bool) :=
  fun _ _ => Except.error (PyErr.runtimeError "transient")

/-- A concrete discovery update that always succeeds without changes. -/
def updOK : Nat → Unit → Except PyErr (Unit × Bool) :=
  fun _ _ => Except.ok ((), false)

theorem dget_append_self {κ α : Type} [DecidableEq κ]
    (m : List (κ × α)) (k : κ) (v : α) (h : dget m k = none) :
    dget (m ++ [(k, v)]) k = some v := by
  induction m with
  | nil => simp [dget]
  | cons p rest ih =>
    obtain ⟨k', v'⟩ := p
    by_cases hk : k' = k
    · simp [dget, hk] at h
    · simp only [dget, hk, if_neg, List.cons_append] at h ⊢
      exact ih h

theorem dget_append_ne {κ α : Type} [DecidableEq κ]
    (m : List (κ × α)) (k k' : κ) (v : α) (h : k ≠ k') :
    dget (m ++ [(k, v)]) k' = dget m k' := by
  induction m with
  | nil => simp [dget, h]
  | cons p rest ih =>
    obtain ⟨k₀, v₀⟩ := p
    by_cases hk : k₀ = k'
    · simp [dget, hk]
    · simpa [dget, hk] using ih

/-- C8: `Results.add_result` is first-writer-wins: on a present key it leaves
the whole map unchanged (so a second add of the same key is a no-op), and on
an absent key it inserts the pair without modifying any other entry. -/
theorem add_result_first_writer_wins {α : Type}
    (m : List (String × α)) (k : String) (v v1 v2 w : α) :
    (dget m k = some w → add_result m k v = m) ∧
    (add_result (add_result m k v1) k v2 = add_result m k v1) ∧
    (dget m k = none →
      dget (add_result m k v) k = some v ∧
      ∀ k', k' ≠ k → dget (add_result m k v) k' = dget m k') := by
  refine ⟨fun h => by simp [add_result, h], ?_, fun h => ?_⟩
  · by_cases h : (dget m k).isSome
    · simp [add_result, h]
    · have hnone : dget m k = none := by
        cases hd : dget m k with
        | none => rfl
        | some w' => simp [hd] at h
      have h1 : add_result m k v1 = m ++ [(k, v1)] := by simp [add_result, hnone]
      have h2 : dget (add_result m k v1) k = some v1 := by
        rw [h1]; exact dget_append_self m k v1 hnone
      have h3 : add_result (add_result m k v1) k v2 =
          if (dget (add_result m k v1) k).isSome then add_result m k v1
          else add_result m k v1 ++ [(k, v2)] := rfl
      rw [h3, if_pos (by rw [h2]; rfl)]
  · refine ⟨?_, fun k' hk' => ?_⟩
    · simp only [add_result, h, Option.isSome_none, Bool.false_eq_true, if_false]
      exact dget_append_self m k v h
    · simp only [add_result, h, Option.isSome_none, Bool.false_eq_true, if_false]
      exact dget_append_ne m k k' v (fun he => hk' he.symm)

theorem add_result_first_writer_wins_witness :
    add_result [("a", ((0 : Int), (0 : Int)))] "a" (1, 1) = [("a", (0, 0))] ∧
    dget (add_result ([] : List (String × Int × Int)) "b" (2, 2)) "b" = some (2, 2) :=
  ⟨(add_result_first_writer_wins [("a", ((0 : Int), (0 : Int)))] "a" (1, 1) (1, 1) (1, 1) (0, 0)).1 rfl,
   ((add_result_first_writer_wins ([] : List (String × Int × Int)) "b" (2, 2) (2, 2) (2, 2) (2, 2)).2.2 rfl).1⟩

/-- C9: `stop` sets the shutdown signal and is idempotent, and `finished`
returns `true` exactly when the shutdown signal is set: after any `stop` it is
`true`, and before any `stop` (signal clear) it is `false`. -/
theorem stop_sets_shutdown_idempotent_finished (st : DriverState) :
    (stop st).shutdown = true ∧
    stop (stop st) = stop st ∧
    (finished st = true ↔ st.shutdown = true) ∧
    finished (stop st) = true ∧
    (st.shutdown = false → finished st = false) :=
  ⟨rfl, rfl, Iff.rfl, rfl, fun h => h⟩

theorem stop_sets_shutdown_idempotent_finished_witness :
    exampleState.shutdown = false ∧ finished exampleState = false :=
  ⟨rfl, (stop_sets_shutdown_idempotent_finished exampleState).2.2.2.2 rfl⟩

/-- C10 (amended): for every non-negative slot index `get_slot_info` is total
and returns `INVALID_SLOT_INFO` (never raising) when the host is blacklisted,
when the host has no entry, or when the slot is out of range of the host's
list; `local_size` instead raises an uncaught lookup error for a host not in
`host_assignments`.  (For negative slot indices Python list indexing applies,
so totality fails there — see the counterexample.) -/
theorem get_slot_info_total_nonneg (st : DriverState) (host : String) (slot : Int)
    (hnn : 0 ≤ slot) :
    (∃ r, get_slot_info st host slot = .ok r) ∧
    (is_blacklisted st host = true →
      get_slot_info st host slot = .ok INVALID_SLOT_INFO) ∧
    (dget st.host_assignments host = none →
      get_slot_info st host slot = .ok INVALID_SLOT_INFO) ∧
    (∀ l, dget st.host_assignments host = some l → (l.length : Int) ≤ slot →
      get_slot_info st host slot = .ok INVALID_SLOT_INFO) ∧
    (dget st.host_assignments host = none → local_size st host = .error ()) := by
  have pyOk : ∀ (l : List SlotInfo), slot < (l.length : Int) →
      ∃ r, pyListGet l slot = Except.ok r := by
    intro l hl
    simp only [pyListGet]
    rw [if_neg (by omega : ¬ slot < 0), if_pos hnn]
    cases hg : l.get? slot.toNat with
    | none =>
      rw [List.get?_eq_none] at hg
      omega
    | some x => exact ⟨x, rfl⟩
  refine ⟨?_, ?_, ?_, ?_, ?_⟩
  · cases hbv : is_blacklisted st host with
    | true =>
      exact ⟨INVALID_SLOT_INFO, by simp [get_slot_info, has_rank_assignment, hbv]⟩
    | false =>
      cases hd : dget st.host_assignments host with
      | none =>
        exact ⟨INVALID_SLOT_INFO,
          by simp [get_slot_info, has_rank_assignment, hbv, hd]⟩
      | some l =>
        by_cases hlen : slot < (l.length : Int)
        · obtain ⟨r, hr⟩ := pyOk l hlen
          have hra : has_rank_assignment st host slot = true := by
            simp [has_rank_assignment, hbv, hd]
            omega
          exact ⟨r, by simp [get_slot_info, hra, hd, hr]⟩
        · have hra : has_rank_assignment st host slot = false := by
            simp [has_rank_assignment, hbv, hd]
            omega
          exact ⟨INVALID_SLOT_INFO, by simp [get_slot_info, hra]⟩
  · intro hb
    have hra : has_rank_assignment st host slot = false := by
      simp [has_rank_assignment, hb]
    simp [get_slot_info, hra]
  · intro hd
    have hra : has_rank_assignment st host slot = false := by
      cases hbv : is_blacklisted st host <;>
        simp [has_rank_assignment, hbv, hd]
    simp [get_slot_info, hra]
  · intro l hd hle
    have hra : has_rank_assignment st host slot = false := by
      cases hbv : is_blacklisted st host
      · simp [has_rank_assignment, hd]
        omega
      · simp [has_rank_assignment, hbv]
    simp [get_slot_info, hra]
  · intro hd
    simp [local_size, hd]

theorem get_slot_info_total_nonneg_witness :
    get_slot_info stateH1 "h1" 5 = .ok INVALID_SLOT_INFO ∧
    local_size stateH1 "h2" = .error () :=
  ⟨(get_slot_info_total_nonneg stateH1 "h1" 5 (by decide)).2.2.2.1 [slotH1] rfl
     (by decide),
   (get_slot_info_total_nonneg stateH1 "h2" 0 (by decide)).2.2.2.2 rfl⟩

/-- C10 counterexample: at slot index `-2` on a host holding one slot,
`has_rank_assignment` passes (`len > -2`), and the Python subscript
`host_assignments[host][-2]` raises `IndexError` — so `get_slot_info` is not
total over all integer slot arguments and does not return `INVALID_SLOT_INFO`
for this out-of-range slot. -/
theorem get_slot_info_raises_counterexample :
    get_slot_info stateH1 "h1" (-2) = .error () := rfl

/-- C2: `_handle_worker_exit` returns silently (no registry call, no result)
when `has_rank_assignment` is false; otherwise it records success exactly when
`exit_code == 0` and failure otherwise, and it publishes
`(exit_code, timestamp)` under key `host[local_rank]` into `Results` if and
only if `finished()` holds and the round id returned by the registry equals
`last_rendezvous()`. -/
theorem handle_worker_exit_spec (st : DriverState) (reg : RegistryModel)
    (s : SlotInfo) (exit_code timestamp : Int) :
    (has_rank_assignment st s.hostname s.local_rank = false →
      handle_worker_exit st reg s exit_code timestamp = (st, [])) ∧
    (has_rank_assignment st s.hostname s.local_rank = true →
      (let rid : Nat := if exit_code = 0 then reg.record_success_id s.hostname s.local_rank
                        else reg.record_failure_id s.hostname s.local_rank
       let evs0 : List Event :=
         if exit_code = 0 then [Event.recordSuccess s.hostname s.local_rank]
         else [Event.recordFailure s.hostname s.local_rank]
       let key := s.hostname ++ "[" ++ toString s.local_rank ++ "]"
       (finished st = true ∧ reg.last_rendezvous = rid →
         handle_worker_exit st reg s exit_code timestamp =
           ({ st with results := add_result st.results key (exit_code, timestamp) },
            evs0 ++ [Event.addResult key (exit_code, timestamp)])) ∧
       (¬ (finished st = true ∧ reg.last_rendezvous = rid) →
         handle_worker_exit st reg s exit_code timestamp = (st, evs0)))) := by
  constructor
  · intro h
    simp [handle_worker_exit, h]
  · intro h
    by_cases hec : exit_code = 0 <;>
      refine ⟨fun hc => ?_, fun hc => ?_⟩ <;>
        simp_all [handle_worker_exit, hec]

theorem handle_worker_exit_spec_witness :
    handle_worker_exit (stop stateH1) reg0 slotH1 0 7 =
      ({ stop stateH1 with
          results := add_result (stop stateH1).results "h1[0]" (0, 7) },
       [Event.recordSuccess "h1" 0, Event.addResult "h1[0]" (0, 7)]) := by
  have h := ((handle_worker_exit_spec (stop stateH1) reg0 slotH1 0 7).2
    (by decide)).1 ⟨rfl, rfl⟩
  simpa using h

/-- C1: when the previous assignment is non-empty and the candidate shares no
hostname with it, `_update_host_assignments` raises the state-broadcast-lost
`RuntimeError`; the returned state is the input state — `host_assignments`,
`rank_assignments` and `world_size` unchanged — and no rendezvous
re-initialization event is emitted. -/
theorem update_host_assignments_state_broadcast_lost
    (assign : Assigner) (st : DriverState) (ch : CurrentHosts)
    (hne : st.host_assignments ≠ [])
    (hdisj : ∀ q ∈ st.host_assignments,
      dget (get_host_assignments assign st ch).1 q.1 = none) :
    update_host_assignments assign st ch =
      (st, [],
       Except.error "No hosts from previous set remaining, unable to broadcast state.") := by
  have hcond : 0 < st.host_assignments.length ∧
      no_common_host st.host_assignments (get_host_assignments assign st ch).1 = true := by
    refine ⟨List.length_pos.mpr hne, ?_⟩
    simp only [no_common_host, List.all_eq_true]
    intro q hq
    simp [hdisj q hq]
  simp only [update_host_assignments]
  rw [if_pos hcond]

theorem update_host_assignments_state_broadcast_lost_witness :
    update_host_assignments assignH2 stateH1 chH2 =
      (stateH1, [],
       Except.error "No hosts from previous set remaining, unable to broadcast state.") :=
  update_host_assignments_state_broadcast_lost assignH2 stateH1 chH2
    (by decide) (by decide)

/-- C4: `wait_for_available_hosts` returns a snapshot only when that
snapshot's available-slot count reaches `min_np`; when no snapshot ever
reaches it, every run raises the timeout error instead of returning; and as a
driver operation it leaves the driver state untouched. -/
theorem wait_for_available_hosts_spec (snaps : Nat → CurrentHosts) (min_np : Nat) :
    (∀ fuel k ch, wait_for_available_hosts snaps min_np fuel k = Except.ok ch →
      min_np ≤ ch.count_available_slots ∧ ∃ j, ch = snaps j) ∧
    ((∀ j, (snaps j).count_available_slots < min_np) →
      ∀ fuel k, wait_for_available_hosts snaps min_np fuel k = Except.error ()) ∧
    (∀ st fuel k, (wait_for_available_hostsD st snaps min_np fuel k).1 = st) := by
  refine ⟨?_, ?_, fun st fuel k => rfl⟩
  · intro fuel
    induction fuel with
    | zero =>
      intro k ch h
      simp only [wait_for_available_hosts] at h
      by_cases hs : has_available_slots (snaps k).count_available_slots min_np = true
      · rw [if_pos hs] at h
        obtain rfl : snaps k = ch := Except.ok.inj h
        refine ⟨?_, k, rfl⟩
        simpa [has_available_slots] using hs
      · rw [if_neg hs] at h
        exact Except.noConfusion h
    | succ fuel ih =>
      intro k ch h
      simp only [wait_for_available_hosts] at h
      by_cases hs : has_available_slots (snaps k).count_available_slots min_np = true
      · rw [if_pos hs] at h
        obtain rfl : snaps k = ch := Except.ok.inj h
        refine ⟨?_, k, rfl⟩
        simpa [has_available_slots] using hs
      · rw [if_neg hs] at h
        exact ih (k + 1) ch h
  · intro hall fuel
    induction fuel with
    | zero =>
      intro k
      have hs : ¬ has_available_slots (snaps k).count_available_slots min_np = true := by
        have := hall k
        simp [has_available_slots]
        omega
      simp only [wait_for_available_hosts]
      rw [if_neg hs]
    | succ fuel ih =>
      intro k
      have hs : ¬ has_available_slots (snaps k).count_available_slots min_np = true := by
        have := hall k
        simp [has_available_slots]
        omega
      simp only [wait_for_available_hosts]
      rw [if_neg hs]
      exact ih (k + 1)

theorem wait_for_available_hosts_spec_witness :
    (1 ≤ chH3.count_available_slots ∧ ∃ _j : Nat, chH3 = chH3) ∧
    wait_for_available_hosts (fun _ => chEmpty) 1 0 0 = Except.error () :=
  ⟨(wait_for_available_hosts_spec (fun _ => chH3) 1).1 0 0 chH3 rfl,
   (wait_for_available_hosts_spec (fun _ => chEmpty) 1).2.1 (fun _ => by decide) 0 0⟩

theorem get_host_assignments_fst (assign : Assigner) (st : DriverState)
    (ch : CurrentHosts) :
    (get_host_assignments assign st ch).1 =
      group_by_host (get_host_assignments assign st ch).2 := rfl

theorem dgetL_dappend (m : List (String × List SlotInfo)) (k h : String)
    (v : SlotInfo) :
    dgetL (dappend m k v) h = if k = h then dgetL m h ++ [v] else dgetL m h := by
  induction m with
  | nil => by_cases hkh : k = h <;> simp [dappend, dgetL, dget, hkh]
  | cons p rest ih =>
    obtain ⟨k', vs⟩ := p
    by_cases hk'k : k' = k
    · subst hk'k
      by_cases hk'h : k' = h <;> simp [dappend, dgetL, dget, hk'h]
    · by_cases hk'h : k' = h
      · have hkh : ¬ k = h := fun he => hk'k (hk'h.trans he.symm)
        have hhk : ¬ h = k := fun he => hkh he.symm
        simp [dappend, dget, dgetL, hk'k, hk'h, hkh, hhk]
      · simp only [dappend, if_neg hk'k]
        have h1 : dgetL ((k', vs) :: dappend rest k v) h = dgetL (dappend rest k v) h := by
          simp [dgetL, dget, hk'h]
        have h2 : dgetL ((k', vs) :: rest) h = dgetL rest h := by
          simp [dgetL, dget, hk'h]
        rw [h1, ih, h2]

theorem dgetL_group_fold (l : List SlotInfo) (h : String) :
    ∀ m, dgetL (l.foldl (fun m s => dappend m s.hostname s) m) h =
      dgetL m h ++ filterHost l h := by
  induction l with
  | nil => intro m; simp [filterHost]
  | cons s l ih =>
    intro m
    simp only [List.foldl_cons]
    rw [ih, dgetL_dappend]
    by_cases hs : s.hostname = h
    · simp [filterHost, List.filter_cons, hs]
    · simp [filterHost, List.filter_cons, hs]

theorem dgetL_group_by_host (l : List SlotInfo) (h : String) :
    dgetL (group_by_host l) h = filterHost l h := by
  simpa [dgetL, dget] using dgetL_group_fold l h []

theorem dget_group_by_host_some (l : List SlotInfo) (h : String)
    (vs : List SlotInfo) (hd : dget (group_by_host l) h = some vs) :
    vs = filterHost l h := by
  have hg := dgetL_group_by_host l h
  rw [dgetL, hd] at hg
  simpa using hg

theorem sum_local_sizes_dappend (m : List (String × List SlotInfo)) (k : String)
    (v : SlotInfo) :
    sum_local_sizes (dappend m k v) = sum_local_sizes m + 1 := by
  induction m with
  | nil => simp [dappend, sum_local_sizes]
  | cons p rest ih =>
    obtain ⟨k', vs⟩ := p
    by_cases hk : k' = k <;>
      simp only [dappend, hk, if_true, if_false, sum_local_sizes, List.map_cons,
        List.sum_cons, List.length_append, List.length_singleton] <;>
      simp [sum_local_sizes] at ih ⊢ <;> omega

theorem sum_local_sizes_group_fold (l : List SlotInfo) :
    ∀ m, sum_local_sizes (l.foldl (fun m s => dappend m s.hostname s) m) =
      sum_local_sizes m + l.length := by
  induction l with
  | nil => intro m; simp
  | cons s l ih =>
    intro m
    simp only [List.foldl_cons]
    rw [ih, sum_local_sizes_dappend]
    simp only [List.length_cons]
    omega

theorem sum_local_sizes_group_by_host (l : List SlotInfo) :
    sum_local_sizes (group_by_host l) = l.length := by
  simpa [sum_local_sizes] using sum_local_sizes_group_fold l []

theorem goodKeys_dappend (m : List (String × List SlotInfo)) (v : SlotInfo)
    (hg : GoodKeys m) : GoodKeys (dappend m v.hostname v) := by
  induction m with
  | nil =>
    intro p hp s hs
    simp only [dappend, List.mem_singleton] at hp
    subst hp
    simp only [List.mem_singleton] at hs
    subst hs
    rfl
  | cons q rest ih =>
    obtain ⟨k', vs⟩ := q
    by_cases hk : k' = v.hostname
    · subst hk
      simp only [dappend, if_pos rfl]
      intro p hp s hs
      rcases List.mem_cons.mp hp with rfl | hp'
      · rcases List.mem_append.mp hs with h1 | h2
        · exact hg (v.hostname, vs) (List.mem_cons_self _ _) s h1
        · simp only [List.mem_singleton] at h2
          subst h2
          rfl
      · exact hg p (List.mem_cons_of_mem _ hp') s hs
    · simp only [dappend, if_neg hk]
      intro p hp s hs
      rcases List.mem_cons.mp hp with rfl | hp'
      · exact hg (k', vs) (List.mem_cons_self _ _) s hs
      · exact ih (fun p hp s hs => hg p (List.mem_cons_of_mem _ hp) s hs) p hp' s hs

theorem goodKeys_group_fold (l : List SlotInfo) :
    ∀ m, GoodKeys m → GoodKeys (l.foldl (fun m s => dappend m s.hostname s) m) := by
  induction l with
  | nil => intro m hm; simpa using hm
  | cons s l ih =>
    intro m hm
    simp only [List.foldl_cons]
    exact ih _ (goodKeys_dappend m s hm)

theorem goodKeys_group_by_host (l : List SlotInfo) : GoodKeys (group_by_host l) :=
  goodKeys_group_fold l [] (by intro p hp; simp at hp)

theorem mem_vals_of (ha : List (String × List SlotInfo)) (x : SlotInfo) :
    x ∈ vals_of ha ↔ ∃ p ∈ ha, x ∈ p.2 := by
  induction ha with
  | nil => simp [vals_of]
  | cons p rest ih =>
    simp only [vals_of, List.foldr_cons, List.mem_append] at ih ⊢
    rw [ih]
    constructor
    · rintro (h1 | ⟨q, hq, hx⟩)
      · exact ⟨p, List.mem_cons_self _ _, h1⟩
      · exact ⟨q, List.mem_cons_of_mem _ hq, hx⟩
    · rintro ⟨q, hq, hx⟩
      rcases List.mem_cons.mp hq with rfl | hq'
      · exact Or.inl hx
      · exact Or.inr ⟨q, hq', hx⟩

theorem mem_vals_dappend (m : List (String × List SlotInfo)) (k : String)
    (v x : SlotInfo) :
    x ∈ vals_of (dappend m k v) ↔ x ∈ vals_of m ∨ x = v := by
  induction m with
  | nil => simp [dappend, vals_of]
  | cons p rest ih =>
    obtain ⟨k', vs⟩ := p
    by_cases hk : k' = k <;>
      simp only [dappend, hk, if_true, if_false, vals_of, List.foldr_cons,
        List.mem_append, List.mem_singleton] at ih ⊢ <;>
      tauto

theorem mem_vals_group_fold (l : List SlotInfo) (x : SlotInfo) :
    ∀ m, x ∈ vals_of (l.foldl (fun m s => dappend m s.hostname s) m) ↔
      x ∈ vals_of m ∨ x ∈ l := by
  induction l with
  | nil => intro m; simp
  | cons s l ih =>
    intro m
    simp only [List.foldl_cons]
    rw [ih, mem_vals_dappend]
    simp only [List.mem_cons]
    tauto

theorem mem_vals_group_by_host (l : List SlotInfo) (x : SlotInfo) :
    x ∈ vals_of (group_by_host l) ↔ x ∈ l := by
  have h := mem_vals_group_fold l x []
  simpa [vals_of] using h

theorem mem_pending_of (ha : List (String × List SlotInfo))
    (active : List (String × Int)) (x : SlotInfo) :
    x ∈ pending_of ha active ↔
      ∃ p ∈ ha, x ∈ p.2 ∧ active.contains (p.1, x.local_rank) = false := by
  induction ha with
  | nil => simp [pending_of]
  | cons p rest ih =>
    simp only [pending_of, List.foldr_cons, List.mem_append, List.mem_filter,
      Bool.not_eq_true'] at ih ⊢
    rw [ih]
    constructor
    · rintro (⟨hx, hc⟩ | ⟨q, hq, hx, hc⟩)
      · exact ⟨p, List.mem_cons_self _ _, hx, hc⟩
      · exact ⟨q, List.mem_cons_of_mem _ hq, hx, hc⟩
    · rintro ⟨q, hq, hx, hc⟩
      rcases List.mem_cons.mp hq with rfl | hq'
      · exact Or.inl ⟨hx, hc⟩
      · exact Or.inr ⟨q, hq', hx, hc⟩

theorem mem_pending_group (l : List SlotInfo) (active : List (String × Int))
    (x : SlotInfo) :
    x ∈ pending_of (group_by_host l) active ↔
      x ∈ l ∧ active.contains (x.hostname, x.local_rank) = false := by
  rw [mem_pending_of]
  constructor
  · rintro ⟨p, hp, hx, hc⟩
    have hh := goodKeys_group_by_host l p hp x hx
    refine ⟨(mem_vals_group_by_host l x).mp ((mem_vals_of _ x).mpr ⟨p, hp, hx⟩), ?_⟩
    rw [hh]
    exact hc
  · rintro ⟨hx, hc⟩
    obtain ⟨p, hp, hxp⟩ := (mem_vals_of _ x).mp ((mem_vals_group_by_host l x).mpr hx)
    have hh := goodKeys_group_by_host l p hp x hxp
    exact ⟨p, hp, hxp, by rw [← hh]; exact hc⟩

theorem dget_dinsert_self {κ α : Type} [DecidableEq κ] (m : List (κ × α))
    (k : κ) (v : α) : dget (dinsert m k v) k = some v := by
  induction m with
  | nil => simp [dinsert, dget]
  | cons p rest ih =>
    obtain ⟨k', v'⟩ := p
    by_cases hk : k' = k <;> simp [dinsert, dget, hk, ih]

theorem dget_dinsert_ne {κ α : Type} [DecidableEq κ] (m : List (κ × α))
    (k r : κ) (v : α) (h : k ≠ r) : dget (dinsert m k v) r = dget m r := by
  induction m with
  | nil => simp [dinsert, dget, h]
  | cons p rest ih =>
    obtain ⟨k', v'⟩ := p
    by_cases hk : k' = k
    · subst hk
      simp [dinsert, dget, h]
    · by_cases hkr : k' = r
      · subst hkr
        simp [dinsert, dget, Ne.symm h, hk]
      · simp [dinsert, dget, hk, hkr, ih]

theorem dget_rank_fold_not_mem (l : List SlotInfo) (r : Int) :
    ∀ m, (∀ s ∈ l, s.rank ≠ r) →
      dget (l.foldl (fun m s => dinsert m s.rank s) m) r = dget m r := by
  induction l with
  | nil => intro m _; rfl
  | cons s l ih =>
    intro m hs
    simp only [List.foldl_cons]
    rw [ih _ (fun t ht => hs t (List.mem_cons_of_mem _ ht))]
    exact dget_dinsert_ne m s.rank r s (hs s (List.mem_cons_self _ _))

theorem dget_rank_fold_seq (l : List SlotInfo) :
    ∀ (k : Nat) (m : List (Int × SlotInfo)),
      (∀ i (hi : i < l.length), (l.get ⟨i, hi⟩).rank = ((k + i : Nat) : Int)) →
      ∀ j (hj : j < l.length),
        dget (l.foldl (fun m s => dinsert m s.rank s) m) ((k + j : Nat) : Int) =
          some (l.get ⟨j, hj⟩) := by
  induction l with
  | nil => intro k m _ j hj; exact absurd hj (Nat.not_lt_zero j)
  | cons s l ih =>
    intro k m hr j hj
    have hs : s.rank = ((k : Nat) : Int) := by
      simpa using hr 0 (Nat.succ_pos _)
    simp only [List.foldl_cons]
    cases j with
    | zero =>
      have hne : ∀ t ∈ l, t.rank ≠ ((k + 0 : Nat) : Int) := by
        intro t ht hc
        obtain ⟨⟨i, hi⟩, rfl⟩ := List.mem_iff_get.mp ht
        have hv := hr (i + 1) (Nat.succ_lt_succ hi)
        simp only [List.get_cons_succ] at hv
        rw [hv] at hc
        omega
      rw [dget_rank_fold_not_mem l _ _ hne]
      have he : ((k + 0 : Nat) : Int) = s.rank := by rw [hs]; norm_num
      rw [he]
      simpa using dget_dinsert_self m s.rank s
    | succ j' =>
      have hj' : j' < l.length := Nat.lt_of_succ_lt_succ hj
      have hr' : ∀ i (hi : i < l.length),
          (l.get ⟨i, hi⟩).rank = ((k + 1 + i : Nat) : Int) := by
        intro i hi
        have hv := hr (i + 1) (Nat.succ_lt_succ hi)
        simp only [List.get_cons_succ] at hv
        rw [hv]
        congr 1
        omega
      have hrec := ih (k + 1) (dinsert m s.rank s) hr' j' hj'
      have he : (k + (j' + 1) : Nat) = (k + 1 + j' : Nat) := by omega
      rw [he]
      simpa using hrec

theorem dget_build_rank (l : List SlotInfo)
    (hr : ∀ i (hi : i < l.length), (l.get ⟨i, hi⟩).rank = (i : Int)) :
    (∀ j (hj : j < l.length),
      dget (build_rank_assignments l) ((j : Nat) : Int) = some (l.get ⟨j, hj⟩)) ∧
    (∀ r : Int, (dget (build_rank_assignments l) r).isSome →
      0 ≤ r ∧ r < (l.length : Int)) := by
  constructor
  · intro j hj
    have h0 : ∀ i (hi : i < l.length), (l.get ⟨i, hi⟩).rank = ((0 + i : Nat) : Int) := by
      intro i hi
      simpa using hr i hi
    have h := dget_rank_fold_seq l 0 [] h0 j hj
    simpa using h
  · intro r hsome
    by_contra hc
    rw [not_and_or] at hc
    have hnm : ∀ s ∈ l, s.rank ≠ r := by
      intro s hsmem he
      obtain ⟨⟨i, hi⟩, rfl⟩ := List.mem_iff_get.mp hsmem
      rw [hr i hi] at he
      rcases hc with hc | hc <;> omega
    have hnone : dget (build_rank_assignments l) r = none := by
      rw [build_rank_assignments, dget_rank_fold_not_mem l r [] hnm]
      rfl
    rw [hnone] at hsome
    simp at hsome

theorem update_ok_shape (assign : Assigner) (st : DriverState) (ch : CurrentHosts)
    (st' : DriverState) (evs : List Event) (pending : List SlotInfo)
    (hup : update_host_assignments assign st ch = (st', evs, Except.ok pending)) :
    st' = { st with
        host_assignments := (get_host_assignments assign st ch).1,
        world_size := (get_host_assignments assign st ch).2.length,
        rank_assignments :=
          build_rank_assignments (get_host_assignments assign st ch).2 } ∧
    evs = [Event.rendezvousInit (get_host_assignments assign st ch).2] ∧
    pending = pending_of (get_host_assignments assign st ch).1
        (slot_pairs st.host_assignments) := by
  simp only [update_host_assignments] at hup
  split at hup
  · simp at hup
  · simp only [Prod.mk.injEq] at hup
    obtain ⟨h1, h2, h3⟩ := hup
    exact ⟨h1.symm, h2.symm, (Except.ok.inj h3).symm⟩

/-- C5: after a successful `_update_host_assignments` whose assigner output
has rank equal to its emission index and per-host local ranks 0,1,2,... (the
packing-order contract), the installed state satisfies the assignment
invariants: `world_size` equals the sum of the per-host list lengths (and the
slot-list length); every slot stored under a host has that hostname and sits
at index `local_rank`; and `rank_assignments` maps each world rank
`j < world_size` to exactly the j-th slot and holds nothing outside
`[0, world_size)` — a bijection onto the assignment's slots. -/
theorem update_host_assignments_invariants
    (assign : Assigner) (st : DriverState) (ch : CurrentHosts)
    (st' : DriverState) (evs : List Event) (pending : List SlotInfo)
    (l : List SlotInfo) (hl : l = (get_host_assignments assign st ch).2)
    (hup : update_host_assignments assign st ch = (st', evs, Except.ok pending))
    (hrank : ∀ i (hi : i < l.length), (l.get ⟨i, hi⟩).rank = (i : Int))
    (hlocal : ∀ h i (hi : i < (filterHost l h).length),
      ((filterHost l h).get ⟨i, hi⟩).local_rank = (i : Int)) :
    st'.world_size = sum_local_sizes st'.host_assignments ∧
    st'.world_size = l.length ∧
    (∀ h vs, dget st'.host_assignments h = some vs →
      ∀ i (hi : i < vs.length),
        (vs.get ⟨i, hi⟩).hostname = h ∧ (vs.get ⟨i, hi⟩).local_rank = (i : Int)) ∧
    (∀ j (hj : j < l.length),
      dget st'.rank_assignments ((j : Nat) : Int) = some (l.get ⟨j, hj⟩)) ∧
    (∀ r : Int, (dget st'.rank_assignments r).isSome →
      0 ≤ r ∧ r < (l.length : Int)) ∧
    (∀ j j' (hj : j < l.length) (hj' : j' < l.length),
      l.get ⟨j, hj⟩ = l.get ⟨j', hj'⟩ → j = j') := by
  obtain ⟨hst, _hevs, _hpend⟩ := update_ok_shape assign st ch st' evs pending hup
  have hha : st'.host_assignments = group_by_host l := by
    rw [hst, hl]
    exact get_host_assignments_fst assign st ch
  have hws : st'.world_size = l.length := by rw [hst, hl]
  have hrk : st'.rank_assignments = build_rank_assignments l := by rw [hst, hl]
  refine ⟨?_, hws, ?_, ?_, ?_, ?_⟩
  · rw [hha, hws, sum_local_sizes_group_by_host]
  · intro h vs hd i hi
    rw [hha] at hd
    have hvs := dget_group_by_host_some l h vs hd
    subst hvs
    refine ⟨?_, hlocal h i hi⟩
    have hm : (filterHost l h).get ⟨i, hi⟩ ∈ filterHost l h := List.get_mem _ _ _
    simp only [filterHost, List.mem_filter] at hm
    exact eq_of_beq hm.2
  · intro j hj
    rw [hrk]
    exact (dget_build_rank l hrank).1 j hj
  · intro r hs
    rw [hrk] at hs
    exact (dget_build_rank l hrank).2 r hs
  · intro j j' hj hj' he
    have h1 := hrank j hj
    have h2 := hrank j' hj'
    rw [he] at h1
    rw [h2] at h1
    omega

theorem update_host_assignments_invariants_witness :
    stateT12.world_size = sum_local_sizes stateT12.host_assignments ∧
    dget stateT12.rank_assignments 1 = some t2 := by
  have hlocal : ∀ h i (hi : i < (filterHost [t1, t2] h).length),
      ((filterHost [t1, t2] h).get ⟨i, hi⟩).local_rank = (i : Int) := by
    intro h i hi
    by_cases hh : ("h3" : String) = h
    · subst hh
      have hi2 : i < 2 := hi
      match i, hi2 with
      | 0, _ => rfl
      | 1, _ => rfl
    · have hb : (("h3" : String) == h) = false := beq_eq_false_iff_ne.mpr hh
      have hf : filterHost [t1, t2] h = [] := by
        simp [filterHost, t1, t2, List.filter_cons, hb]
      rw [hf] at hi
      exact absurd hi (by simp)
  have h := update_host_assignments_invariants assignT12 exampleState chH3
    stateT12 [Event.rendezvousInit [t1, t2]] [t1, t2] [t1, t2] rfl rfl
    (by decide) hlocal
  refine ⟨h.1, ?_⟩
  have h4 := h.2.2.2.1 1 (by decide)
  simpa using h4

/-- C7: in every successful activation, the registry reset (carrying the new
world size) is emitted after the rendezvous push that installs the new
assignment and strictly before every worker spawn, and the spawned slots are
exactly the slots of the new assignment whose `(hostname, local_rank)` pair
was not present in the previous assignment. -/
theorem activate_hosts_reset_before_spawn
    (assign : Assigner) (st : DriverState) (snaps : Nat → CurrentHosts)
    (fuel min_np : Nat) (st' : DriverState) (evs : List Event)
    (hact : activate_hosts assign st snaps fuel min_np = (st', evs, Except.ok ())) :
    ∃ (lst : List SlotInfo) (pending : List SlotInfo),
      evs = Event.rendezvousInit lst :: Event.registryReset st'.world_size ::
        pending.map Event.spawnWorker ∧
      st'.host_assignments = group_by_host lst ∧
      (∀ s : SlotInfo, s ∈ pending ↔
        (s ∈ vals_of st'.host_assignments ∧
          (slot_pairs st.host_assignments).contains (s.hostname, s.local_rank) = false)) := by
  simp only [activate_hosts] at hact
  cases hw : wait_for_available_hosts snaps min_np fuel 0 with
  | error e =>
    rw [hw] at hact
    simp at hact
  | ok chv =>
    rw [hw] at hact
    dsimp only at hact
    rcases hu : update_host_assignments assign st chv with ⟨st2, evs2, res⟩
    rw [hu] at hact
    cases res with
    | error msg => simp at hact
    | ok pend =>
      dsimp only at hact
      simp only [Prod.mk.injEq] at hact
      obtain ⟨hst2, hevs, _⟩ := hact
      obtain ⟨hshape, hevs2, hpend⟩ := update_ok_shape assign st chv st2 evs2 pend hu
      refine ⟨(get_host_assignments assign st chv).2, pend, ?_, ?_, ?_⟩
      · rw [← hevs, hevs2, hst2]
        rfl
      · rw [← hst2, hshape]
        exact get_host_assignments_fst assign st chv
      · intro s
        have hha : st'.host_assignments =
            group_by_host (get_host_assignments assign st chv).2 := by
          rw [← hst2, hshape]
          exact get_host_assignments_fst assign st chv
        rw [hha, hpend, get_host_assignments_fst assign st chv]
        rw [mem_pending_group, mem_vals_group_by_host]

theorem activate_hosts_reset_before_spawn_witness :
    ∃ (lst : List SlotInfo) (pending : List SlotInfo),
      [Event.rendezvousInit [t1], Event.registryReset stateH3.world_size,
        Event.spawnWorker t1] =
        Event.rendezvousInit lst :: Event.registryReset stateH3.world_size ::
          pending.map Event.spawnWorker ∧
      stateH3.host_assignments = group_by_host lst ∧
      (∀ s : SlotInfo, s ∈ pending ↔
        (s ∈ vals_of stateH3.host_assignments ∧
          (slot_pairs exampleState.host_assignments).contains
            (s.hostname, s.local_rank) = false)) :=
  activate_hosts_reset_before_spawn assignT1 exampleState (fun _ => chH3) 0 1
    stateH3
    [Event.rendezvousInit [t1], Event.registryReset stateH3.world_size,
      Event.spawnWorker t1] rfl

/-- C6: `_notify_workers_host_changes` always returns normally — any exception
of the RPC call itself is swallowed — and emits at most one
`notify_hosts_updated`; it emits nothing when the candidate assignment equals
the current `host_assignments`, when no slot holds world rank 0, or when no
client is registered for the coordinator's `(host, local_rank)`; and every
notification it emits goes to the coordinator's client with the given
timestamp. -/
theorem notify_workers_host_changes_spec (assign : Assigner) (st : DriverState)
    (ch : CurrentHosts) (ts : Int) :
    (notify_workers_host_changes assign st ch ts).2 = Except.ok () ∧
    ((notify_workers_host_changes assign st ch ts).1.countP isNotifyEvent ≤ 1) ∧
    (map_eq_assignments (get_host_assignments assign st ch).1 st.host_assignments = true →
      (notify_workers_host_changes assign st ch ts).1 = []) ∧
    (dget st.rank_assignments 0 = none →
      (notify_workers_host_changes assign st ch ts).1 = []) ∧
    (∀ c, dget st.rank_assignments 0 = some c →
      dget st.worker_clients (c.hostname, c.local_rank) = none →
      (notify_workers_host_changes assign st ch ts).1 = []) ∧
    (∀ h lr ts', Event.notifyHostsUpdated h lr ts' ∈
        (notify_workers_host_changes assign st ch ts).1 →
      ∃ c, dget st.rank_assignments 0 = some c ∧
        h = c.hostname ∧ lr = c.local_rank ∧ ts' = ts) := by
  by_cases hmeq : map_eq_assignments (get_host_assignments assign st ch).1
      st.host_assignments = true
  · have hn : notify_workers_host_changes assign st ch ts = ([], Except.ok ()) := by
      simp only [notify_workers_host_changes]
      rw [if_pos hmeq]
    refine ⟨by rw [hn], by rw [hn]; simp, fun _ => by rw [hn], fun _ => by rw [hn],
      fun c' _ _ => by rw [hn], fun h lr ts' hmem => ?_⟩
    rw [hn] at hmem
    simp at hmem
  · cases hc : dget st.rank_assignments 0 with
    | none =>
      have hn : notify_workers_host_changes assign st ch ts = ([], Except.ok ()) := by
        simp only [notify_workers_host_changes]
        rw [if_neg hmeq, hc]
      refine ⟨by rw [hn], by rw [hn]; simp, fun _ => by rw [hn], fun _ => by rw [hn],
        fun c' _ _ => by rw [hn], fun h lr ts' hmem => ?_⟩
      rw [hn] at hmem
      simp at hmem
    | some c =>
      cases hcl : dget st.worker_clients (c.hostname, c.local_rank) with
      | none =>
        have hn : notify_workers_host_changes assign st ch ts = ([], Except.ok ()) := by
          simp only [notify_workers_host_changes]
          rw [if_neg hmeq, hc]
          dsimp only
          rw [hcl]
        refine ⟨by rw [hn], by rw [hn]; simp, fun _ => by rw [hn], fun _ => by rw [hn],
          fun c' _ _ => by rw [hn], fun h lr ts' hmem => ?_⟩
        rw [hn] at hmem
        simp at hmem
      | some flag =>
        have hn : notify_workers_host_changes assign st ch ts =
            (Event.notifyHostsUpdated c.hostname c.local_rank ts ::
              (if flag then (if 2 ≤ st.verbose then [Event.logWarning] else []) else []),
             Except.ok ()) := by
          simp only [notify_workers_host_changes]
          rw [if_neg hmeq, hc]
          dsimp only
          rw [hcl]
          cases flag <;> simp
        refine ⟨by rw [hn], ?_, fun h' => absurd h' hmeq, ?_, ?_, ?_⟩
        · rw [hn]
          cases flag <;> by_cases hv : 2 ≤ st.verbose <;>
            simp [List.countP_cons, isNotifyEvent, hv]
        · intro h'
          exact Option.noConfusion h'
        · intro c' hc' hcl'
          obtain rfl := Option.some.inj hc'
          rw [hcl] at hcl'
          exact Option.noConfusion hcl'
        · intro h lr ts' hmem
          rw [hn] at hmem
          rcases List.mem_cons.mp hmem with he | hmem'
          · obtain ⟨h1, h2, h3⟩ := Event.notifyHostsUpdated.inj he
            exact ⟨c, rfl, h1, h2, h3⟩
          · cases flag with
            | false => simp at hmem'
            | true =>
              by_cases hv : 2 ≤ st.verbose <;> simp [hv] at hmem'

theorem notify_workers_host_changes_spec_witness :
    (notify_workers_host_changes assignH1 stateH1 chH2 0).1 = [] ∧
    (notify_workers_host_changes assignT1 exampleState chH3 0).1 = [] ∧
    (notify_workers_host_changes assignT1 stateH1 chH3 0).1 = [] :=
  ⟨(notify_workers_host_changes_spec assignH1 stateH1 chH2 0).2.2.1 (by decide),
   (notify_workers_host_changes_spec assignT1 exampleState chH3 0).2.2.2.1 rfl,
   (notify_workers_host_changes_spec assignT1 stateH1 chH3 0).2.2.2.2.1 slotH1
     rfl rfl⟩

theorem discover_hosts_survives {H : Type} (upd : Nat → H → Except PyErr (H × Bool))
    (nevs : Nat → List Event)
    (hlater : ∀ t hm', 1 ≤ t → ∀ e, upd t hm' = Except.error e →
      ∃ m, e = PyErr.runtimeError m) :
    ∀ fuel tick hm, 1 ≤ tick →
      ∃ hm' evs, discover_hosts upd nevs fuel tick false hm = Except.ok (hm', evs) := by
  intro fuel
  induction fuel with
  | zero => intro tick hm _; exact ⟨hm, [], rfl⟩
  | succ fuel ih =>
    intro tick hm htick
    cases hit : upd tick hm with
    | ok p =>
      obtain ⟨hm0, changed⟩ := p
      have hiter : discover_iteration false hm (upd tick) (nevs tick) =
          Except.ok (hm0, if changed then nevs tick ++ [Event.condBroadcast] else []) := by
        cases changed <;> simp [discover_iteration, hit]
      obtain ⟨hm', evs, hrec⟩ := ih (tick + 1) hm0 (by omega)
      refine ⟨hm',
        (if changed then nevs tick ++ [Event.condBroadcast] else []) ++ evs, ?_⟩
      simp only [discover_hosts]
      rw [hiter]
      dsimp only
      rw [hrec]
    | error e =>
      obtain ⟨m, rfl⟩ := hlater tick hm htick e hit
      have hiter : discover_iteration false hm (upd tick) (nevs tick) =
          Except.ok (hm, [Event.logWarning]) := by
        simp [discover_iteration, hit]
      obtain ⟨hm', evs, hrec⟩ := ih (tick + 1) hm (by omega)
      refine ⟨hm', [Event.logWarning] ++ evs, ?_⟩
      simp only [discover_hosts]
      rw [hiter]
      dsimp only
      rw [hrec]

/-- C3 (amended): an error raised by the host update on the very first
invocation propagates out of the discovery loop (fatal, whatever its type);
on every subsequent invocation a raised `RuntimeError` — the only exception
type the loop's `except` clause catches — is logged and swallowed, the
previously known host-manager state is retained, and the loop continues to
the next tick; hence when the first invocation succeeds and later invocations
fail only with `RuntimeError`, the discovery thread never dies.  (An
exception of any other type on a subsequent invocation is not caught and
kills the thread — see the counterexample.) -/
theorem discover_hosts_error_policy {H : Type} :
    (∀ (upd : Nat → H → Except PyErr (H × Bool)) (nevs : Nat → List Event)
        (hm : H) (e : PyErr) (fuel : Nat),
      upd 0 hm = Except.error e →
      discover_hosts upd nevs (fuel + 1) 0 true hm = Except.error e) ∧
    (∀ (hm : H) (u : H → Except PyErr (H × Bool)) (nevs : List Event) (msg : String),
      u hm = Except.error (PyErr.runtimeError msg) →
      discover_iteration false hm u nevs = Except.ok (hm, [Event.logWarning])) ∧
    (∀ (upd : Nat → H → Except PyErr (H × Bool)) (nevs : Nat → List Event) (hm : H),
      (∃ p, upd 0 hm = Except.ok p) →
      (∀ t hm', 1 ≤ t → ∀ e, upd t hm' = Except.error e →
        ∃ m, e = PyErr.runtimeError m) →
      ∀ fuel, ∃ hm' evs,
        discover_hosts upd nevs fuel 0 true hm = Except.ok (hm', evs)) := by
  refine ⟨?_, ?_, ?_⟩
  · intro upd nevs hm e fuel h0
    have hiter : discover_iteration true hm (upd 0) (nevs 0) = Except.error e := by
      cases e with
      | runtimeError m => simp [discover_iteration, h0]
      | otherError m => simp [discover_iteration, h0]
    simp only [discover_hosts]
    rw [hiter]
  · intro hm u nevs msg hu
    simp [discover_iteration, hu]
  · intro upd nevs hm h0 hlater fuel
    cases fuel with
    | zero => exact ⟨hm, [], rfl⟩
    | succ fuel =>
      obtain ⟨⟨hm0, changed⟩, h0⟩ := h0
      have hiter : discover_iteration true hm (upd 0) (nevs 0) =
          Except.ok (hm0, if changed then nevs 0 ++ [Event.condBroadcast] else []) := by
        cases changed <;> simp [discover_iteration, h0]
      obtain ⟨hm', evs, hrec⟩ :=
        discover_hosts_survives upd nevs hlater fuel 1 hm0 (by omega)
      refine ⟨hm',
        (if changed then nevs 0 ++ [Event.condBroadcast] else []) ++ evs, ?_⟩
      simp only [discover_hosts]
      rw [hiter]
      dsimp only
      rw [hrec]

theorem discover_hosts_error_policy_witness :
    discover_hosts updRT (fun _ => []) 1 0 true () =
      Except.error (PyErr.runtimeError "transient") ∧
    discover_iteration false () (updRT 1) [] = Except.ok ((), [Event.logWarning]) ∧
    ∃ (hm' : Unit) (evs : List Event),
      discover_hosts updOK (fun _ => []) 3 0 true () = Except.ok (hm', evs) :=
  ⟨discover_hosts_error_policy.1 updRT (fun _ => []) ()
     (PyErr.runtimeError "transient") 0 rfl,
   discover_hosts_error_policy.2.1 () (updRT 1) [] "transient" rfl,
   discover_hosts_error_policy.2.2 updOK (fun _ => []) () ⟨((), false), rfl⟩
     (fun _t _hm' _ht _e he => Except.noConfusion he) 3⟩

/-- C3 counterexample: a non-`RuntimeError` exception raised by the host
update on the second invocation is not caught — the `except RuntimeError`
clause does not match — so it escapes the loop and kills the discovery
thread, contrary to the claim that any error on a subsequent invocation is
caught and swallowed. -/
theorem discover_hosts_dies_counterexample :
    discover_hosts updCE (fun _ => []) 2 0 true () =
      Except.error (PyErr.otherError "boom") := rfl

end Horovod
